import Mathlib

set_option maxRecDepth 2048

/-!
Verification development for the bitranslator front-end orchestrator.

The JavaScript sources are shallowly embedded: strings become `List Char`,
the DOM/network side effects become explicit data (request records, emitted
HTML pieces, poll-state records), and the handful of regular expressions used
by the code are embedded as the deterministic prefix matchers they denote on
the inputs at hand.  File/line references point into the repository sources.
-/

namespace BiTrans

/-- Strings are modelled as lists of characters (JS strings over BMP code
points; every character appearing in the sources is a single UTF-16 unit). -/
abbrev Str := List Char

/-- JS `\s` character class (also used by `String.prototype.trim`). -/
def isJsSpace (c : Char) : Bool :=
  let n := c.toNat
  n == 32 || n == 9 || n == 10 || n == 11 || n == 12 || n == 13 ||
  n == 0xa0 || n == 0x1680 || (0x2000 ≤ n && n ≤ 0x200a) ||
  n == 0x2028 || n == 0x2029 || n == 0x202f || n == 0x205f ||
  n == 0x3000 || n == 0xfeff

/-- JS `\d` character class. -/
def isJsDigit (c : Char) : Bool :=
  48 ≤ c.toNat && c.toNat ≤ 57

/-- Number of leading characters satisfying `p` (the length a greedy
`p*` / `p+` regex piece consumes). -/
def countWhile (p : Char → Bool) : Str → Nat
  | [] => 0
  | c :: l => if p c then countWhile p l + 1 else 0

/-- JS `String.prototype.trim`. -/
def jsTrim (s : Str) : Str :=
  ((s.dropWhile isJsSpace).reverse.dropWhile isJsSpace).reverse

/-- Fuelled worker for global literal replacement.  The fuel is the length of
the subject string, which is always sufficient for a nonempty pattern. -/
def replaceFuel (pat rep : Str) : Nat → Str → Str
  | _, [] => []
  | 0, s => s
  | f + 1, c :: rest =>
    if pat.isPrefixOf (c :: rest) && !pat.isEmpty then
      rep ++ replaceFuel pat rep f (List.drop (pat.length - 1) rest)
    else
      c :: replaceFuel pat rep f rest

/-- JS `s.replace(new RegExp(escapedLiteral, "g"), rep)`: replace every
(leftmost, non-overlapping) occurrence of the literal `pat`; replacement text
is not rescanned, exactly as in JS. -/
def replaceAll (s pat rep : Str) : Str := replaceFuel pat rep s.length s

/-- `escape` from `textToHtml` (core.js line 72): `&`, `<`, `>` in sequence. -/
def jsEscape (s : Str) : Str :=
  replaceAll (replaceAll (replaceAll s [ '&' ] ("&amp;".toList)) [ '<' ] ("&lt;".toList))
    [ '>' ] ("&gt;".toList)

/-- `esc` from core.js lines 8-10: like `jsEscape` but also escapes `"`. -/
def jsEscAttr (s : Str) : Str :=
  replaceAll (jsEscape s) [ '\"' ] ("&quot;".toList)

/-- `escape(trimmed).replace(/\n/g, "<br>")` (core.js line 95). -/
def brEscape (s : Str) : Str := replaceAll (jsEscape s) [ '\n' ] ("<br>".toList)

/-- Decimal digit character (used to embed JS template interpolation of a
number). -/
def natDigitChar (k : Nat) : Char :=
  if k = 0 then '0' else if k = 1 then '1' else if k = 2 then '2'
  else if k = 3 then '3' else if k = 4 then '4' else if k = 5 then '5'
  else if k = 6 then '6' else if k = 7 then '7' else if k = 8 then '8' else '9'

/-- Fuelled decimal rendering worker. -/
def natDigitsAux : Nat → Nat → Str
  | 0, _ => []
  | f + 1, n =>
    if n < 10 then [natDigitChar n]
    else natDigitsAux f (n / 10) ++ [natDigitChar (n % 10)]

/-- Decimal rendering of a natural number, as JS template literals produce. -/
def natDigits (n : Nat) : Str := natDigitsAux (n + 1) n

/-! ## C1 — highlight overlay (`_applyHighlights`, reader panel lines 24-39)

A user highlight `{text, note}`; an absent note is the empty string (falsy in
JS).  `_applyHighlights` walks the highlight array in order; for each entry of
length ≥ 2 it regex-escapes the literal text and does one global replace on
the whole current HTML, wrapping every occurrence in a `mark` tag that carries
the entry's index.  Regex-escaping followed by `new RegExp(..., "g")` denotes
a global literal replacement, embedded by `replaceAll`. -/

structure Highlight where
  text : Str
  note : Str
deriving DecidableEq

/-- The opening `mark` tag built by `_applyHighlights` for index `i`. -/
def markOpen (i : Nat) (h : Highlight) : Str :=
  ("<mark class=\"user-highlight".toList)
  ++ (if h.note.isEmpty then [] else (" has-note".toList))
  ++ ("\" data-hl-idx=\"".toList) ++ natDigits i ++ [ '\"' ]
  ++ (if h.note.isEmpty then [] else
        (" data-note=\"".toList) ++ jsEscAttr h.note ++ [ '\"' ])
  ++ [ '>' ]

/-- The loop body of `_applyHighlights`, starting at index `i`. -/
def applyHighlightsFrom (i : Nat) : List Highlight → Str → Str
  | [], html => html
  | h :: rest, html =>
    if h.text.length < 2 then applyHighlightsFrom (i + 1) rest html
    else applyHighlightsFrom (i + 1) rest
      (replaceAll html h.text (markOpen i h ++ h.text ++ ("</mark>".toList)))

/-- `_applyHighlights(transEl, highlights)` acting on the element's HTML. -/
def applyHighlights (hs : List Highlight) (html : Str) : Str :=
  applyHighlightsFrom 0 hs html

/-! ## C2/C3 — text segmentation (`textToHtml`)

Two versions exist in the repository: the current one in core.js
(`src/unnamed/part_003`, lines 71-121) and a legacy one in
`src/frontend/app.js` lines 1143-1170.  Both are embedded. -/

/-- `normalize` from core.js line 74:
`s.replace(/\s+/g, " ").trim().toLowerCase()`.  `collapseWs` replaces each
maximal whitespace run by a single space. -/
def collapseWs : Str → Str
  | [] => []
  | c :: rest =>
    if isJsSpace c then
      match rest with
      | [] => [ ' ' ]
      | d :: _ => if isJsSpace d then collapseWs rest else ' ' :: collapseWs rest
    else c :: collapseWs rest

/-- JS `toLowerCase` on the characters appearing in this code base. -/
def jsToLower (s : Str) : Str := s.map Char.toLower

/-- `normalize` from core.js line 74. -/
def normalizeWs (s : Str) : Str := jsToLower (jsTrim (collapseWs s))

/-- The decoration class `[—–\-:：·.。,，\s]` of core.js line 108. -/
def isDecoChar (c : Char) : Bool :=
  c == '—' || c == '–' || c == '-' || c == ':' || c == '：' || c == '·' ||
  c == '.' || c == '。' || c == ',' || c == '，' || isJsSpace c

/-- `stripDeco` from core.js line 108. -/
def stripDeco (s : Str) : Str := s.filter (fun c => !isDecoChar c)

/-- Character class of the separator-line regex `^[\s*\-=~·•—]{3,}$`. -/
def isSepLineChar (c : Char) : Bool :=
  isJsSpace c || c == '*' || c == '-' || c == '=' || c == '~' || c == '·' ||
  c == '•' || c == '—'

/-- `^[\s*\-=~·•—]{3,}$.test(trimmed)` (core.js line 113). -/
def isSeparatorLine (s : Str) : Bool :=
  decide (3 ≤ s.length) && s.all isSepLineChar

/-- JS `.` (dot) outside character classes: anything but line terminators. -/
def isJsDot (c : Char) : Bool :=
  let n := c.toNat
  !(n == 10 || n == 13 || n == 0x2028 || n == 0x2029)

/-- The class `[章节回部篇]` of the chapter-heading regex. -/
def zhHeadCls (c : Char) : Bool :=
  c == '章' || c == '节' || c == '回' || c == '部' || c == '篇'

/-- The alternative `第.{1,6}[章节回部篇]` as an anchored prefix test. -/
def zhHeading (s : Str) : Bool :=
  match s with
  | '第' :: rest =>
    [1, 2, 3, 4, 5, 6].any fun k =>
      decide (k ≤ rest.length) && (rest.take k).all isJsDot &&
      (match rest.drop k with
       | c :: _ => zhHeadCls c
       | [] => false)
  | _ => false

/-- An alternative of shape `Word\s+\d` (case sensitive), anchored. -/
def wordSpDigitHeading (w : Str) (s : Str) : Bool :=
  w.isPrefixOf s &&
  (let r := s.drop w.length
   let a := countWhile isJsSpace r
   decide (1 ≤ a) &&
   (match r.drop a with
    | c :: _ => isJsDigit c
    | [] => false))

/-- The alternative `\d+\.`, anchored. -/
def numDotHeading (s : Str) : Bool :=
  let b := countWhile isJsDigit s
  decide (1 ≤ b) &&
  (match s.drop b with
   | c :: _ => c == '.'
   | [] => false)

/-- The chapter-heading test of core.js line 114 (also app.js line 1167):
`trimmed.length < 60 && /^(第.{1,6}[章节回部篇]|Chapter\s+\d|Part\s+\d|PART\s+\d|\d+\.)/`. -/
def isHeadingLine (s : Str) : Bool :=
  decide (s.length < 60) &&
  (zhHeading s || wordSpDigitHeading ("Chapter".toList) s ||
   wordSpDigitHeading ("Part".toList) s || wordSpDigitHeading ("PART".toList) s ||
   numDotHeading s)

/-- Fuelled worker embedding `text.split(/\n\n+/)`. -/
def splitBlankAux : Nat → Str → Str → List Str
  | 0, cur, s => [cur.reverse ++ s]
  | _ + 1, cur, [] => [cur.reverse]
  | f + 1, cur, '\n' :: '\n' :: rest =>
    cur.reverse :: splitBlankAux f [] (rest.dropWhile (fun c => c == '\n'))
  | f + 1, cur, c :: rest => splitBlankAux f (c :: cur) rest

/-- `text.split(/\n\n+/)` (core.js line 78, app.js line 1152). -/
def jsSplitBlank (s : Str) : List Str := splitBlankAux s.length [] s

/-- Core.js lines 78-81: blank-line split with trim/filter, falling back to
single-newline splitting when it yields one block containing newlines. -/
def coreParagraphs (text : Str) : List Str :=
  let ps := ((jsSplitBlank text).map jsTrim).filter (fun p => !p.isEmpty)
  match ps with
  | [p] =>
    if p.contains '\n' then
      ((p.splitOn '\n').map jsTrim).filter (fun q => !q.isEmpty)
    else ps
  | _ => ps

/-- The separator piece emitted for decorative lines. -/
def sepPiece : Str := "<p class=\"separator\">* * *</p>".toList

/-- A rendered `h2` heading piece. -/
def h2Piece (e : Str) : Str := ("<h2>".toList) ++ e ++ ("</h2>".toList)

/-- A rendered paragraph piece. -/
def pPiece (e : Str) : Str := ("<p>".toList) ++ e ++ ("</p>".toList)

/-- Rendering of one trimmed paragraph (core.js lines 113-117). -/
def renderPiece (trimmed : Str) : Str :=
  if isSeparatorLine trimmed then sepPiece
  else if isHeadingLine trimmed then h2Piece (brEscape trimmed)
  else pPiece (brEscape trimmed)

/-- The paragraph loop of core.js lines 93-118, producing the appended HTML
pieces in order.  `firstBody` is the `firstBodyPara` flag; `titleNorm` the
normalized title (empty when falsy). -/
def corePieces (titleNorm : Str) : Bool → List Str → List Str
  | _, [] => []
  | firstBody, p :: rest =>
    if p.isEmpty then corePieces titleNorm firstBody rest
    else if firstBody && !titleNorm.isEmpty then
      (if decide ((normalizeWs p).length ≤ max (titleNorm.length * 2) 120) &&
          (normalizeWs p == titleNorm ||
           stripDeco (normalizeWs p) == stripDeco titleNorm)
       then corePieces titleNorm false rest
       else renderPiece p :: corePieces titleNorm false rest)
    else renderPiece p :: corePieces titleNorm firstBody rest

/-- The `h1` title heading (core.js line 87). -/
def h1Piece (title : Str) : Str :=
  ("<h1 class=\"chapter-title\">".toList) ++ jsEscape title ++ ("</h1>".toList)

/-- The body pieces emitted by the current `textToHtml` (core.js). -/
def textToHtmlPieces (text title : Str) : List Str :=
  corePieces (if title.isEmpty then [] else normalizeWs title) true
    (coreParagraphs text)

/-- `textToHtml` from core.js lines 71-121. -/
def textToHtml (text title : Str) : Str :=
  (if title.isEmpty then [] else h1Piece title) ++
  (textToHtmlPieces text title).flatten

/-- `similarity` from app.js lines 1145-1150, as the pair
(intersection size, `Math.max` of union size and 1); the guard for an empty
argument returns similarity 0, i.e. the pair `(0, 1)`. -/
def appSimParts (a b : Str) : Nat × Nat :=
  if a.isEmpty || b.isEmpty then (0, 1)
  else
    let sa := (jsToLower a).dedup
    let sb := (jsToLower b).dedup
    let inter := (sa.filter (fun c => sb.contains c)).length
    (inter, max (sa.length + sb.length - inter) 1)

/-- `similarity` from app.js lines 1145-1150: character-set Jaccard
similarity of the lowercased strings. -/
def appSimilarity (a b : Str) : ℚ :=
  ((appSimParts a b).1 : ℚ) / ((appSimParts a b).2 : ℚ)

/-- `similarity(trimmed, chapterTitle) > 0.6` (app.js line 1161), compared
exactly: since the denominator is at least 1, the rational comparison
`inter / den > 3/5` is the integer comparison `5·inter > 3·den`. -/
def appSimGt (a b : Str) : Bool :=
  decide (3 * (appSimParts a b).2 < 5 * (appSimParts a b).1)

/-- `/[。.！!？?」"…]$/.test(trimmed)` (app.js line 1162). -/
def endsPunct (s : Str) : Bool :=
  match s.getLast? with
  | some c =>
    c == '。' || c == '.' || c == '！' || c == '!' || c == '？' || c == '?' ||
    c == '」' || c == '\"' || c == '…'
  | none => false

/-- A legacy `h1` piece (app.js line 1164). -/
def appH1 (e : Str) : Str := ("<h1>".toList) ++ e ++ ("</h1>".toList)

/-- The `map` body of the legacy app.js `textToHtml` (lines 1152-1169);
`titleAdded` is the closure flag.  Note the similarity test has no length
cap, and a short first paragraph without closing punctuation becomes an `h1`
even when it fails both the equality and similarity tests. -/
def appPieces (title : Str) : Bool → List Str → List Str
  | _, [] => []
  | titleAdded, para :: rest =>
    let trimmed := jsTrim para
    if trimmed.isEmpty then [] :: appPieces title titleAdded rest
    else if isSeparatorLine trimmed then sepPiece :: appPieces title titleAdded rest
    else if !titleAdded then
      (if !title.isEmpty &&
          (jsToLower trimmed == jsToLower title ||
           appSimGt trimmed title ||
           (decide (trimmed.length < 80) && !endsPunct trimmed))
       then appH1 (brEscape trimmed) :: appPieces title true rest
       else (if isHeadingLine trimmed then h2Piece (brEscape trimmed)
             else pPiece (brEscape trimmed)) :: appPieces title true rest)
    else (if isHeadingLine trimmed then h2Piece (brEscape trimmed)
          else pPiece (brEscape trimmed)) :: appPieces title titleAdded rest

/-- `textToHtml` from app.js lines 1143-1170 (legacy version). -/
def appTextToHtml (text title : Str) : Str :=
  (appPieces title false (jsSplitBlank text)).flatten

/-! ## C4 — poll tick (`pollStatus`, app.js lines 994-1031)

The interval callback fetches the project status each tick.  The terminal
statuses clear the interval and invoke one display routine; `"translating"`
only re-renders progress; any other status leaves polling untouched.  The
front-end event loop runs callbacks sequentially (spec §5), so the poll loop
is embedded as a fold over the observed status sequence; once the interval is
cleared (`timerActive = false`) later ticks never run. -/

/-- The display routine dispatched on a terminal status. -/
inductive DisplayAct where
  | showAnalysis
  | showStrategy
  | showSample
  | reviewStopped
  | reviewDone
  | alertError
deriving DecidableEq, Repr

/-- The terminal branch taken for a status, if any (app.js lines 1002-1026). -/
def terminalDisplay (status : String) : Option DisplayAct :=
  if status = "analyzed" then some .showAnalysis
  else if status = "strategy_generated" then some .showStrategy
  else if status = "sample_ready" then some .showSample
  else if status = "stopped" then some .reviewStopped
  else if status = "completed" then some .reviewDone
  else if status = "error" then some .alertError
  else none

/-- Poll-loop state: whether the interval is live, and the display routines
invoked so far (in order). -/
structure PollSt where
  timerActive : Bool
  handoffs : List DisplayAct
deriving DecidableEq, Repr

/-- One poll tick observing `status`. -/
def pollTick (s : PollSt) (status : String) : PollSt :=
  if s.timerActive = false then s
  else
    match terminalDisplay status with
    | some d => { timerActive := false, handoffs := s.handoffs ++ [d] }
    | none => s

/-- The poll loop over a sequence of observed statuses. -/
def runPoll (s : PollSt) (l : List String) : PollSt := l.foldl pollTick s

/-- The state right after `pollStatus` sets up its interval. -/
def pollStart : PollSt := { timerActive := true, handoffs := [] }

/-! ## C5 — polling singleton (`startPolling`/`stopPolling`, core.js 58-68)

`state.pollTimer` holds the current interval id (or null); `setInterval`
creates a fresh timer in the runtime, `clearInterval` destroys one.  The
world of live timers is a list of ids plus a fresh-id counter. -/

/-- The JS runtime's set of live interval timers. -/
structure TimerWorld where
  nextId : Nat
  active : List Nat
deriving DecidableEq, Repr

/-- The module state: `state.pollTimer`. -/
structure CoreSt where
  pollTimer : Option Nat
deriving DecidableEq, Repr

/-- `stopPolling()` (core.js lines 66-68):
`if (state.pollTimer) { clearInterval(state.pollTimer); state.pollTimer = null }`. -/
def stopPolling : CoreSt × TimerWorld → CoreSt × TimerWorld
  | (c, w) =>
    match c.pollTimer with
    | some t => ({ pollTimer := none }, { w with active := w.active.erase t })
    | none => (c, w)

/-- `startPolling()` (core.js lines 62-65): `stopPolling()` then
`state.pollTimer = setInterval(...)`. -/
def startPolling (s : CoreSt × TimerWorld) : CoreSt × TimerWorld :=
  let s' := stopPolling s
  let w := s'.2
  ({ pollTimer := some w.nextId },
   { nextId := w.nextId + 1, active := w.active ++ [w.nextId] })

/-- A call into the polling API. -/
inductive PollOp where
  | start
  | stop
deriving DecidableEq, Repr

/-- Run a sequence of `startPolling`/`stopPolling` calls. -/
def runPollOps : CoreSt × TimerWorld → List PollOp → CoreSt × TimerWorld
  | s, [] => s
  | s, .start :: l => runPollOps (startPolling s) l
  | s, .stop :: l => runPollOps (stopPolling s) l

/-- Page-load state: no timer variable set, no live timers. -/
def pollInit : CoreSt × TimerWorld := (⟨none⟩, ⟨0, []⟩)

/-- The singleton invariant: the set of live timers is exactly the one
recorded in `state.pollTimer`. -/
def PollSingleton (s : CoreSt × TimerWorld) : Prop :=
  s.2.active = s.1.pollTimer.toList

/-! ## C6/C8 — translate requests (translate.js 6-23, review.js 12-30, 244-251) -/

/-- A chapter row as returned by `GET /chapters` (the fields used here). -/
structure ChapterRec where
  chapter_index : Nat
  status : String
deriving DecidableEq, Repr

/-- The JSON body of `POST /translate/all` when a range is sent. -/
structure RangeBody where
  start_chapter : Int
  end_chapter : Int
deriving DecidableEq, Repr

/-- A backend request as issued by the front end. -/
structure ApiRequest where
  path : String
  body : Option RangeBody
deriving DecidableEq, Repr

/-- The request issued by the resume button (review.js lines 244-251):
`apiJson(..., "/translate/all", { method: "POST" })` — no body at all. -/
def resumeTranslateRequest (pid : String) : ApiRequest :=
  { path := "/api/projects/" ++ pid ++ "/translate/all", body := none }

/-- JS `parseInt(input.value) || d`: `none` models NaN, and `0` is falsy. -/
def jsOrInt (v : Option Int) (d : Int) : Int :=
  match v with
  | none => d
  | some n => if n = 0 then d else n

/-- `startTranslation(startEl, endEl)` (translate.js lines 6-23), returning
the body of the `/translate/all` request it issues, or `none` when it returns
early (invalid range, or the user declined the confirm dialog). -/
def startTranslationBody (startVal endVal : Option Int) (total : Int)
    (confirmed : Bool) : Option RangeBody :=
  let s := jsOrInt startVal 1
  let e := jsOrInt endVal total
  if e - s + 1 < 1 then none
  else if !confirmed then none
  else some { start_chapter := s - 1, end_chapter := e - 1 }

/-- `showReview` (review.js lines 19-27): the untranslated chapters. -/
def untranslatedOf (chs : List ChapterRec) : List ChapterRec :=
  chs.filter (fun c => !(c.status == "translated"))

/-- The `[first, last]` range prefilled into the review panel's
translate-more inputs, when any chapter is untranslated. -/
def reviewPrefill (chs : List ChapterRec) : Option (Nat × Nat) :=
  match h : untranslatedOf chs with
  | [] => none
  | first :: rest =>
    some (first.chapter_index + 1,
      ((first :: rest).getLast (by simp)).chapter_index + 1)

/-- The translate-more flow: prefill from `showReview`, then
`startTranslation` on those inputs. -/
def translateMoreBody (chs : List ChapterRec) (confirmed : Bool) :
    Option RangeBody :=
  match reviewPrefill chs with
  | none => none
  | some (s, e) =>
    startTranslationBody (some (s : Int)) (some (e : Int)) (chs.length : Int)
      confirmed

/-! ## C7 — progress blending (`updateProgressUI`, translate.js lines 25-62)

Both the try and the catch branch compute the same percentage formula from a
translated count, a total, the current-chapter name and the chunk counters;
the claim's report tuple corresponds to the catch branch
(`progress.translated_chapters`, `progress.total_chapters`). -/

/-- A progress report; `current_chapter` is the chapter name string (empty
when the backend sends none — falsy in JS). -/
structure Progress where
  translated_chapters : Nat
  total_chapters : Nat
  current_chapter : String
  chunk_done : Nat
  chunk_total : Nat
deriving DecidableEq, Repr

/-- JS `x || d` on non-negative numbers: `0` is falsy. -/
def jsOrNat (n d : Nat) : Nat := if n = 0 then d else n

/-- Lines 26-28: `chunkDone`, `chunkTotal`, `chunkFraction`. -/
def chunkFractionOf (p : Progress) : ℚ :=
  let cd := jsOrNat p.chunk_done 0
  let ct := jsOrNat p.chunk_total 1
  if 0 < ct then (cd : ℚ) / (ct : ℚ) else 0

/-- The in-flight fraction blended in when a chapter is being translated
(`progress.current_chapter ? chunkFraction : 0`). -/
def inFlightOf (p : Progress) : ℚ :=
  if p.current_chapter ≠ "" then chunkFractionOf p else 0

/-- Line 37/51: `smoothProgress = translated + (current ? chunkFraction : 0)`. -/
def smoothOf (p : Progress) : ℚ :=
  (p.translated_chapters : ℚ) + inFlightOf p

/-- Line 38/52: `pct = total > 0 ? Math.min(100, Math.round(smooth / total * 100)) : 0`.
JS `Math.round x = ⌊x + 1/2⌋` on non-negative values, which is Mathlib's
`round` on `ℚ`. -/
def pctOf (p : Progress) : ℤ :=
  if 0 < p.total_chapters then
    min 100 (round (smoothOf p / (p.total_chapters : ℚ) * 100))
  else 0

/-! ## C9 — step-bar gating (`showPanel`, core.js lines 28-47) -/

/-- The step list (core.js line 26). -/
def STEPS : List String :=
  ["upload", "analysis", "strategy", "sample", "translate", "review",
   "reader", "done"]

/-- Whether step `i` receives the `done` class when the active panel has
index `idx` (core.js lines 38-46). -/
def stepDone (idx i : Nat) (hasTranslated : Bool) : Bool :=
  decide (i < idx) ||
  (decide (idx < i) && decide (STEPS.indexOf "review" ≤ i) && hasTranslated)

/-- Whether step `i` receives the `active` class. -/
def stepActive (idx i : Nat) : Bool := i == idx

/-! ## C10 — chapter-number prefixing (titles.js lines 8-53)

Each regex in `_NUM_PATTERNS` is anchored and built from literal words,
greedy character classes and a trailing separator class, with no alternative
requiring backtracking across disjoint classes; each is embedded as the
deterministic prefix matcher returning the length of the captured group. -/

/-- Case-insensitive character comparison for the `/i` patterns (ASCII). -/
def ciEq (a b : Char) : Bool := a.toLower == b.toLower

/-- Case-insensitive literal-word prefix test. -/
def ciIsPfx : Str → Str → Bool
  | [], _ => true
  | _ :: _, [] => false
  | a :: as, b :: bs => ciEq a b && ciIsPfx as bs

/-- The separator class `[\s.:：\-–—]` used by `_NUM_PATTERNS`. -/
def isSepCls (c : Char) : Bool :=
  isJsSpace c || c == '.' || c == ':' || c == '：' || c == '-' || c == '–' ||
  c == '—'

/-- A pattern `^(word\s+\d+[\s.:：\-–—]*)/i`: returns the match length. -/
def matchWordNumSep (w s : Str) : Option Nat :=
  if ciIsPfx w s then
    let s1 := s.drop w.length
    let a := countWhile isJsSpace s1
    if a = 0 then none
    else
      let s2 := s1.drop a
      let b := countWhile isJsDigit s2
      if b = 0 then none
      else some (w.length + a + b + countWhile isSepCls (s2.drop b))
  else none

/-- The class `[一二三四五六七八九十百千\d]`. -/
def isZhNumChar (c : Char) : Bool :=
  isJsDigit c || c == '一' || c == '二' || c == '三' || c == '四' ||
  c == '五' || c == '六' || c == '七' || c == '八' || c == '九' ||
  c == '十' || c == '百' || c == '千'

/-- The class `[章节篇卷部回]` of the 7th pattern. -/
def zhMarkerChar (c : Char) : Bool :=
  c == '章' || c == '节' || c == '篇' || c == '卷' || c == '部' || c == '回'

/-- `^(第\s*[一二三四五六七八九十百千\d]+\s*[章节篇卷部回][\s.:：\-–—]*)`. -/
def matchZhNumSep (s : Str) : Option Nat :=
  match s with
  | c0 :: s1 =>
    if c0 == '第' then
      let a := countWhile isJsSpace s1
      let s2 := s1.drop a
      let b := countWhile isZhNumChar s2
      if b = 0 then none
      else
        let s3 := s2.drop b
        let c := countWhile isJsSpace s3
        match s3.drop c with
        | m :: s4 =>
          if zhMarkerChar m then
            some (1 + a + b + c + 1 + countWhile isSepCls s4)
          else none
        | [] => none
    else none
  | [] => none

/-- `[IVXLCDM]` under the `/i` flag. -/
def romanCiChar (c : Char) : Bool :=
  let l := c.toLower
  l == 'i' || l == 'v' || l == 'x' || l == 'l' || l == 'c' || l == 'd' ||
  l == 'm'

/-- `[IVXLCDM]` case sensitive (10th pattern has no `/i`). -/
def romanUpChar (c : Char) : Bool :=
  c == 'I' || c == 'V' || c == 'X' || c == 'L' || c == 'C' || c == 'D' ||
  c == 'M'

/-- A branch `word\s+[IVXLCDM]+[\s.:：\-–—]*` of the 8th pattern. -/
def matchWordRomanSep (w s : Str) : Option Nat :=
  if ciIsPfx w s then
    let s1 := s.drop w.length
    let a := countWhile isJsSpace s1
    if a = 0 then none
    else
      let s2 := s1.drop a
      let b := countWhile romanCiChar s2
      if b = 0 then none
      else some (w.length + a + b + countWhile isSepCls (s2.drop b))
  else none

/-- The 8th pattern: alternatives tried left to right. -/
def matchAnyWordRoman (s : Str) : Option Nat :=
  (["chapter", "kapitel", "chapitre", "part", "teil", "partie", "book",
    "volume"].map String.toList).findSome? fun w => matchWordRomanSep w s

/-- The 9th pattern `^(\d+[\s.:：\-–—]+)`. -/
def matchNumSep (s : Str) : Option Nat :=
  let b := countWhile isJsDigit s
  if b = 0 then none
  else
    let c := countWhile isSepCls (s.drop b)
    if c = 0 then none else some (b + c)

/-- The 10th pattern `^([IVXLCDM]+[\s.:：\-–—]+)`. -/
def matchRomanSep (s : Str) : Option Nat :=
  let b := countWhile romanUpChar s
  if b = 0 then none
  else
    let c := countWhile isSepCls (s.drop b)
    if c = 0 then none else some (b + c)

/-- `_NUM_PATTERNS` in order (titles.js lines 8-15), on the trimmed title. -/
def detectLen (s : Str) : Option Nat :=
  matchWordNumSep ("chapter".toList) s <|> matchWordNumSep ("kapitel".toList) s <|>
  matchWordNumSep ("chapitre".toList) s <|> matchWordNumSep ("teil".toList) s <|>
  matchWordNumSep ("part".toList) s <|> matchWordNumSep ("book".toList) s <|>
  matchZhNumSep s <|> matchAnyWordRoman s <|> matchNumSep s <|> matchRomanSep s

/-- `detectNumberPrefix` (titles.js lines 17-21). -/
def detectNumberPfx (title : Str) : Option Str :=
  if title.isEmpty then none
  else
    let tr := jsTrim title
    (detectLen tr).map fun k => tr.take k

/-- `stripNumberPrefix` (titles.js lines 23-27). -/
def stripNumberPfx (title : Str) : Str :=
  if title.isEmpty then title
  else
    match detectNumberPfx title with
    | some p => jsTrim ((jsTrim title).drop p.length)
    | none => title

/-- JS `String.prototype.includes`: contiguous-substring test. -/
def listHasSub (pat : Str) : Str → Bool
  | [] => pat.isEmpty
  | c :: rest => pat.isPrefixOf (c :: rest) || listHasSub pat rest

/-- `getChapterPrefix` (titles.js lines 29-40). -/
def getChapterPfx (lang : Str) (num : Nat) : Str :=
  let l := jsToLower lang
  if ("zh".toList).isPrefixOf l || listHasSub ("chinese".toList) l ||
     listHasSub ("中文".toList) l then
    ("第".toList) ++ natDigits num ++ ("章：".toList)
  else if ("ja".toList).isPrefixOf l || listHasSub ("japanese".toList) l ||
     listHasSub ("日".toList) l then
    ("第".toList) ++ natDigits num ++ ("章：".toList)
  else if ("ko".toList).isPrefixOf l || listHasSub ("korean".toList) l ||
     listHasSub ("韩".toList) l then
    ("제".toList) ++ natDigits num ++ ("장: ".toList)
  else if ("de".toList).isPrefixOf l || listHasSub ("german".toList) l ||
     listHasSub ("德".toList) l then
    ("Kapitel ".toList) ++ natDigits num ++ (": ".toList)
  else if ("fr".toList).isPrefixOf l || listHasSub ("french".toList) l ||
     listHasSub ("法".toList) l then
    ("Chapitre ".toList) ++ natDigits num ++ (" : ".toList)
  else if ("es".toList).isPrefixOf l || listHasSub ("spanish".toList) l ||
     listHasSub ("西班牙".toList) l then
    ("Capítulo ".toList) ++ natDigits num ++ (": ".toList)
  else if ("it".toList).isPrefixOf l || listHasSub ("italian".toList) l ||
     listHasSub ("意".toList) l then
    ("Capitolo ".toList) ++ natDigits num ++ (": ".toList)
  else if ("ru".toList).isPrefixOf l || listHasSub ("russian".toList) l ||
     listHasSub ("俄".toList) l then
    ("Глава ".toList) ++ natDigits num ++ (": ".toList)
  else ("Chapter ".toList) ++ natDigits num ++ (": ".toList)

/-! ## Theorems -/

theorem runPoll_of_inactive (l : List String) :
    ∀ s : PollSt, s.timerActive = false → runPoll s l = s := by
  induction l with
  | nil => intro s _; rfl
  | cons a l ih =>
    intro s hs
    have h1 : pollTick s a = s := by simp [pollTick, hs]
    show runPoll (pollTick s a) l = s
    rw [h1]
    exact ih s hs

/-- C4: whenever a poll tick observes a status in the no-further-polling set
(`analyzed`, `strategy_generated`, `sample_ready`, `stopped`, `completed`,
`error`, i.e. `terminalDisplay` is set), polling stops and that phase's
display routine is invoked exactly once; no later tick — in particular a
second identical terminal poll result — re-triggers the handoff. -/
theorem claim_C4_terminal_handoff_once (st : String) (d : DisplayAct)
    (hterm : terminalDisplay st = some d) (rest : List String) :
    runPoll pollStart (st :: rest) = { timerActive := false, handoffs := [d] } := by
  have hstep : pollTick pollStart st = { timerActive := false, handoffs := [d] } := by
    simp [pollTick, pollStart, hterm]
  show runPoll (pollTick pollStart st) rest = _
  rw [hstep]
  exact runPoll_of_inactive rest _ rfl

/-- Witness for C4: two consecutive identical `stopped` results invoke the
review display exactly once and leave the timer cleared. -/
theorem claim_C4_witness :
    terminalDisplay "stopped" = some DisplayAct.reviewStopped ∧
    runPoll pollStart ["stopped", "stopped"] =
      { timerActive := false, handoffs := [DisplayAct.reviewStopped] } :=
  ⟨rfl, claim_C4_terminal_handoff_once "stopped" DisplayAct.reviewStopped rfl ["stopped"]⟩

theorem stopPolling_pollTimer (s : CoreSt × TimerWorld) :
    (stopPolling s).1.pollTimer = none := by
  obtain ⟨c, w⟩ := s
  cases hc : c.pollTimer <;> simp [stopPolling, hc]

theorem stopPolling_singleton (s : CoreSt × TimerWorld) (h : PollSingleton s) :
    PollSingleton (stopPolling s) := by
  obtain ⟨c, w⟩ := s
  unfold PollSingleton at *
  cases hc : c.pollTimer with
  | none => simpa [stopPolling, hc] using h
  | some t =>
    simp only [stopPolling, hc]
    simp only [hc, Option.toList] at h
    simp [h]

theorem startPolling_singleton (s : CoreSt × TimerWorld) (h : PollSingleton s) :
    PollSingleton (startPolling s) := by
  have h' := stopPolling_singleton s h
  have hnone := stopPolling_pollTimer s
  unfold PollSingleton at *
  rw [hnone] at h'
  simp only [Option.toList] at h'
  simp [startPolling, h']

/-- C5: at most one polling loop is ever active — for every sequence of
`startPolling`/`stopPolling` calls from page load, the live interval timers
are exactly the one recorded in `state.pollTimer`, hence never more than
one (starting a new poll always clears the previous timer first, no matter
which project the callback now targets). -/
theorem claim_C5_single_poll_loop (ops : List PollOp) :
    PollSingleton (runPollOps pollInit ops) ∧
    (runPollOps pollInit ops).2.active.length ≤ 1 := by
  have main : ∀ (l : List PollOp) (s : CoreSt × TimerWorld),
      PollSingleton s → PollSingleton (runPollOps s l) := by
    intro l
    induction l with
    | nil => intro s h; exact h
    | cons op l ih =>
      intro s h
      cases op with
      | start => exact ih _ (startPolling_singleton s h)
      | stop => exact ih _ (stopPolling_singleton s h)
  have hinit : PollSingleton pollInit := by
    unfold PollSingleton pollInit
    rfl
  have hs := main ops pollInit hinit
  refine ⟨hs, ?_⟩
  unfold PollSingleton at hs
  rw [hs]
  cases (runPollOps pollInit ops).1.pollTimer <;> simp [Option.toList]

/-- Witness for C5: after start, start, stop, start there is exactly the
one timer recorded in `state.pollTimer`. -/
theorem claim_C5_witness :
    PollSingleton (runPollOps pollInit
      [PollOp.start, PollOp.start, PollOp.stop, PollOp.start]) ∧
    (runPollOps pollInit
      [PollOp.start, PollOp.start, PollOp.stop, PollOp.start]).2.active.length ≤ 1 :=
  claim_C5_single_poll_loop [PollOp.start, PollOp.start, PollOp.stop, PollOp.start]

/-- C8: a chapter range with `end < start` is rejected client side — the
function returns before any backend call — while a valid range produces a
`/translate/all` body carrying `start-1`/`end-1` (0-based). -/
theorem claim_C8_range_validation (s e total : Int) (hs : s ≠ 0) (he : e ≠ 0) :
    (e < s → startTranslationBody (some s) (some e) total true = none) ∧
    (s ≤ e → startTranslationBody (some s) (some e) total true =
      some { start_chapter := s - 1, end_chapter := e - 1 }) := by
  constructor
  · intro h
    have h1 : e - s + 1 < 1 := by omega
    simp [startTranslationBody, jsOrInt, hs, he, h1]
  · intro h
    have h1 : ¬(e - s + 1 < 1) := by omega
    simp [startTranslationBody, jsOrInt, hs, he, h1]

/-- Witness for C8: the range 6..3 issues no request; the range 2..9 issues
exactly `start_chapter = 1`, `end_chapter = 8`. -/
theorem claim_C8_witness :
    startTranslationBody (some 6) (some 3) 10 true = none ∧
    startTranslationBody (some 2) (some 9) 10 true =
      some { start_chapter := 1, end_chapter := 8 } :=
  ⟨(claim_C8_range_validation 6 3 10 (by decide) (by decide)).1 (by decide),
   (claim_C8_range_validation 2 9 10 (by decide) (by decide)).2 (by decide)⟩

/-- C9: whenever `hasTranslatedChapters` is true every step at or beyond
Review (index 5) is marked reachable (done or active) regardless of the
current phase; when it is false the gating is strictly linear — exactly the
steps before the current one are done; and even with the flag set, forward
steps before Review are never marked done. -/
theorem claim_C9_forward_navigation (idx i : Nat) (hidx : idx < STEPS.length)
    (hi : i < STEPS.length) :
    (STEPS.indexOf "review" ≤ i →
      stepDone idx i true = true ∨ stepActive idx i = true) ∧
    (stepDone idx i false = true ↔ i < idx) ∧
    (idx < i → i < STEPS.indexOf "review" → stepDone idx i true = false) := by
  have hrev : STEPS.indexOf "review" = 5 := by rfl
  refine ⟨?_, ?_, ?_⟩
  · intro h5
    rw [hrev] at h5
    rcases Nat.lt_trichotomy i idx with h | h | h
    · left
      simp [stepDone, h]
    · right
      simp [stepActive, h]
    · left
      simp [stepDone, hrev, h, h5]
  · simp [stepDone]
  · intro h1 h2
    rw [hrev] at h2
    have hni : ¬ i < idx := by omega
    have hn5 : ¬ 5 ≤ i := by omega
    simp [stepDone, hrev, hni, hn5]

/-- Witness for C9: from the Strategy phase (index 2) with translated
chapters, the Reader step (index 6) is reachable; without the flag it is
not done. -/
theorem claim_C9_witness :
    (stepDone 2 6 true = true ∨ stepActive 2 6 = true) ∧
    (stepDone 2 6 false = true ↔ 6 < 2) :=
  ⟨(claim_C9_forward_navigation 2 6 (by decide) (by decide)).1 (by decide),
   (claim_C9_forward_navigation 2 6 (by decide) (by decide)).2.1⟩

/-- C1 counterexample: `_applyHighlights` applies the highlights in list
order — not descending length — with a plain global replace that does not
skip already-marked regions, so on the spec's own example the shorter string
`"forest"` IS wrapped again inside the marker of `"dark forest"`: the output
contains the nested closing pair. -/
theorem claim_C1_counterexample :
    applyHighlights [⟨"dark forest".toList, []⟩, ⟨"forest".toList, []⟩]
      ("<p>the dark forest loomed</p>".toList) =
    ("<p>the <mark class=\"user-highlight\" data-hl-idx=\"0\">dark <mark class=\"user-highlight\" data-hl-idx=\"1\">forest</mark></mark> loomed</p>".toList) ∧
    listHasSub ("</mark></mark>".toList)
      (applyHighlights [⟨"dark forest".toList, []⟩, ⟨"forest".toList, []⟩]
        ("<p>the dark forest loomed</p>".toList)) = true := by
  decide

/-- C1 (amended): every highlight string of length ≥ 2 is regex-escaped and
all of its occurrences are wrapped by one global replace carrying its index,
applied in LIST order with no skipping of already-marked regions — so for
overlapping strings the result depends on list order and nesting can occur:
with `"forest"` listed first, `"dark forest"` simply never matches any more.
Strings shorter than two characters are skipped entirely. -/
theorem claim_C1_amended :
    (∀ (hs : List Highlight) (html : Str),
      (∀ h ∈ hs, h.text.length < 2) → applyHighlights hs html = html) ∧
    applyHighlights [⟨"forest".toList, []⟩, ⟨"dark forest".toList, []⟩]
      ("<p>the dark forest loomed</p>".toList) =
    ("<p>the dark <mark class=\"user-highlight\" data-hl-idx=\"0\">forest</mark> loomed</p>".toList) := by
  constructor
  · have main : ∀ (hs : List Highlight) (i : Nat) (html : Str),
        (∀ h ∈ hs, h.text.length < 2) → applyHighlightsFrom i hs html = html := by
      intro hs
      induction hs with
      | nil => intro i html _; rfl
      | cons h rest ih =>
        intro i html hall
        have hh : h.text.length < 2 := hall h (by simp)
        rw [applyHighlightsFrom, if_pos hh]
        exact ih (i + 1) html (fun x hx => hall x (by simp [hx]))
    intro hs html hall
    exact main hs 0 html hall
  · decide

/-- Witness for the universally quantified part of the amended C1: a
single-character highlight leaves the HTML untouched. -/
theorem claim_C1_witness :
    applyHighlights [⟨"a".toList, []⟩] ("<p>banana</p>".toList) =
      ("<p>banana</p>".toList) :=
  claim_C1_amended.1 [⟨"a".toList, []⟩] ("<p>banana</p>".toList) (by decide)

theorem renderPiece_cases (p : Str) :
    renderPiece p = sepPiece ∨ renderPiece p = h2Piece (brEscape p) ∨
    renderPiece p = pPiece (brEscape p) := by
  unfold renderPiece
  split
  · left; rfl
  · split
    · right; left; rfl
    · right; right; rfl

theorem corePieces_mem (tN : Str) (l : List Str) :
    ∀ (fb : Bool) (x : Str), x ∈ corePieces tN fb l →
      x = sepPiece ∨ ∃ q ∈ l, x = h2Piece (brEscape q) ∨ x = pPiece (brEscape q) := by
  induction l with
  | nil =>
    intro fb x hx
    simp [corePieces] at hx
  | cons p rest ih =>
    intro fb x hx
    have hstep : ∀ y : Str, y ∈ corePieces tN false rest ∨ y ∈ corePieces tN fb rest →
        y = sepPiece ∨ ∃ q ∈ p :: rest, y = h2Piece (brEscape q) ∨ y = pPiece (brEscape q) := by
      intro y hy
      have hy' : y = sepPiece ∨ ∃ q ∈ rest, y = h2Piece (brEscape q) ∨ y = pPiece (brEscape q) := by
        rcases hy with hy | hy
        · exact ih false y hy
        · exact ih fb y hy
      rcases hy' with h | ⟨q, hq, h⟩
      · exact Or.inl h
      · exact Or.inr ⟨q, by simp [hq], h⟩
    have hrp : x = renderPiece p →
        x = sepPiece ∨ ∃ q ∈ p :: rest, x = h2Piece (brEscape q) ∨ x = pPiece (brEscape q) := by
      intro hx
      rcases renderPiece_cases p with h | h | h
      · exact Or.inl (hx.trans h)
      · exact Or.inr ⟨p, by simp, Or.inl (hx.trans h)⟩
      · exact Or.inr ⟨p, by simp, Or.inr (hx.trans h)⟩
    rw [corePieces] at hx
    split at hx
    · exact hstep x (Or.inr hx)
    · split at hx
      · split at hx
        · exact hstep x (Or.inl hx)
        · rcases List.mem_cons.mp hx with h | h
          · exact hrp h
          · exact hstep x (Or.inl h)
      · rcases List.mem_cons.mp hx with h | h
        · exact hrp h
        · exact hstep x (Or.inr h)

theorem sepPiece_ne_pPiece (x : Str) : sepPiece ≠ pPiece x := by
  intro h
  have h2 : sepPiece.get? 2 = (pPiece x).get? 2 := by rw [h]
  have hL : sepPiece.get? 2 = some ' ' := rfl
  have hR : (pPiece x).get? 2 = some '>' := rfl
  rw [hL, hR] at h2
  exact absurd h2 (by decide)

theorem h2Piece_ne_pPiece (x y : Str) : h2Piece x ≠ pPiece y := by
  intro h
  have h2 : (h2Piece x).get? 1 = (pPiece y).get? 1 := by rw [h]
  have hL : (h2Piece x).get? 1 = some 'h' := rfl
  have hR : (pPiece y).get? 1 = some 'p' := rfl
  rw [hL, hR] at h2
  exact absurd h2 (by decide)

/-- C2 counterexample: with title `"The Storm"` and text whose first
paragraph equals the title verbatim, the first paragraph is elided, yet the
rendered output still contains a paragraph equal to the title — emitted for
the second paragraph — so the claim's "no duplicate paragraph equal to the
title" fails as a universal statement. -/
theorem claim_C2_counterexample :
    textToHtml ("The Storm\n\nThe Storm".toList) ("The Storm".toList) =
      ("<h1 class=\"chapter-title\">The Storm</h1><p>The Storm</p>".toList) ∧
    pPiece (jsEscape ("The Storm".toList)) ∈
      textToHtmlPieces ("The Storm\n\nThe Storm".toList) ("The Storm".toList) := by
  constructor
  · decide
  · decide

/-- C2 (amended): when the first split paragraph equals the title after
whitespace/case normalization (verbatim equality included), it is elided —
the emitted pieces are exactly those of the remaining paragraphs — and the
output then contains a paragraph equal to the title only if some LATER
paragraph renders to one. -/
theorem claim_C2_amended (text title p0 : Str) (rest : List Str)
    (hsplit : coreParagraphs text = p0 :: rest)
    (hp0 : p0.isEmpty = false)
    (ht : title.isEmpty = false)
    (htN : (normalizeWs title).isEmpty = false)
    (heq : normalizeWs p0 = normalizeWs title) :
    textToHtmlPieces text title = corePieces (normalizeWs title) false rest ∧
    ((∀ q ∈ rest, pPiece (brEscape q) ≠ pPiece (jsEscape title)) →
      pPiece (jsEscape title) ∉ textToHtmlPieces text title) := by
  have hmain : textToHtmlPieces text title = corePieces (normalizeWs title) false rest := by
    unfold textToHtmlPieces
    rw [hsplit, if_neg (by simp [ht])]
    rw [corePieces]
    rw [if_neg (by simp [hp0])]
    rw [if_pos (by simp [htN])]
    rw [if_pos (by rw [heq]; simp [le_max_iff]; omega)]
  refine ⟨hmain, ?_⟩
  intro hnod hmem
  rw [hmain] at hmem
  rcases corePieces_mem _ _ _ _ hmem with h | ⟨q, hq, h | h⟩
  · exact sepPiece_ne_pPiece _ h.symm
  · exact h2Piece_ne_pPiece _ _ h.symm
  · exact hnod q hq h.symm

/-- Witness for C2: for the text `"The Storm\n\nNight fell over the
hills."` with title `"The Storm"` the first paragraph is elided and the
output contains no paragraph equal to the title. -/
theorem claim_C2_witness :
    textToHtmlPieces ("The Storm\n\nNight fell over the hills.".toList)
        ("The Storm".toList) =
      corePieces (normalizeWs ("The Storm".toList)) false
        [("Night fell over the hills.".toList)] ∧
    pPiece (jsEscape ("The Storm".toList)) ∉
      textToHtmlPieces ("The Storm\n\nNight fell over the hills.".toList)
        ("The Storm".toList) :=
  ⟨(claim_C2_amended ("The Storm\n\nNight fell over the hills.".toList)
      ("The Storm".toList) ("The Storm".toList)
      [("Night fell over the hills.".toList)] (by decide) (by decide)
      (by decide) (by decide) (by decide)).1,
   (claim_C2_amended ("The Storm\n\nNight fell over the hills.".toList)
      ("The Storm".toList) ("The Storm".toList)
      [("Night fell over the hills.".toList)] (by decide) (by decide)
      (by decide) (by decide) (by decide)).2 (by decide)⟩

/-- C3 counterexample: the current segmenter has NO similarity test — with
title `"forest"`, the short first paragraph `"fore"` has character-set
Jaccard similarity `2/3 > 0.6` and is far below the length cap, yet it is
rendered as a genuine content paragraph; conversely, the legacy app.js
renderer suppresses `"Hello world"` into a heading against title `"Zebra"`
although it fails both the equality and the similarity test. -/
theorem claim_C3_counterexample :
    (3 : ℚ) / 5 < appSimilarity ("fore".toList) ("forest".toList) ∧
    ("fore".toList).length ≤ max ((normalizeWs ("forest".toList)).length * 2) 120 ∧
    pPiece (brEscape ("fore".toList)) ∈
      textToHtmlPieces ("fore\n\nThe trees waited by the gate.".toList)
        ("forest".toList) ∧
    appTextToHtml ("Hello world\n\nMore text here.".toList) ("Zebra".toList) =
      ("<h1>Hello world</h1><p>More text here.</p>".toList) := by
  refine ⟨?_, by decide, by decide, by decide⟩
  have h1 : appSimParts ("fore".toList) ("forest".toList) = (4, 6) := by decide
  unfold appSimilarity
  rw [h1]
  norm_num

/-- C3 (amended): in the current segmenter a first paragraph is suppressed
exactly when its normalized length is within the cap
`max (2·|title|) 120` AND it equals the normalized title outright or after
stripping decoration characters; there is no similarity test, and a first
paragraph failing this condition is rendered as ordinary content.  (The
legacy app.js renderer instead turns near-title or short unpunctuated first
paragraphs into an `h1` heading, with no length cap on its similarity
branch.) -/
theorem claim_C3_amended (text title p0 : Str) (rest : List Str)
    (hsplit : coreParagraphs text = p0 :: rest)
    (hp0 : p0.isEmpty = false)
    (ht : title.isEmpty = false)
    (htN : (normalizeWs title).isEmpty = false) :
    (textToHtmlPieces text title = corePieces (normalizeWs title) false rest ↔
      ((normalizeWs p0).length ≤ max ((normalizeWs title).length * 2) 120 ∧
       (normalizeWs p0 = normalizeWs title ∨
        stripDeco (normalizeWs p0) = stripDeco (normalizeWs title)))) ∧
    (¬ ((normalizeWs p0).length ≤ max ((normalizeWs title).length * 2) 120 ∧
        (normalizeWs p0 = normalizeWs title ∨
         stripDeco (normalizeWs p0) = stripDeco (normalizeWs title))) →
      textToHtmlPieces text title =
        renderPiece p0 :: corePieces (normalizeWs title) false rest) := by
  have hbody : textToHtmlPieces text title =
      (if (decide ((normalizeWs p0).length ≤ max ((normalizeWs title).length * 2) 120) &&
           (normalizeWs p0 == normalizeWs title ||
            stripDeco (normalizeWs p0) == stripDeco (normalizeWs title)))
       then corePieces (normalizeWs title) false rest
       else renderPiece p0 :: corePieces (normalizeWs title) false rest) := by
    unfold textToHtmlPieces
    rw [hsplit, if_neg (by simp [ht])]
    rw [corePieces]
    rw [if_neg (by simp [hp0])]
    rw [if_pos (by simp [htN])]
  have hcond : (decide ((normalizeWs p0).length ≤ max ((normalizeWs title).length * 2) 120) &&
      (normalizeWs p0 == normalizeWs title ||
       stripDeco (normalizeWs p0) == stripDeco (normalizeWs title))) = true ↔
      ((normalizeWs p0).length ≤ max ((normalizeWs title).length * 2) 120 ∧
       (normalizeWs p0 = normalizeWs title ∨
        stripDeco (normalizeWs p0) = stripDeco (normalizeWs title))) := by
    simp
  constructor
  · constructor
    · intro hEq
      by_contra hnP
      have hne : ¬((decide ((normalizeWs p0).length ≤ max ((normalizeWs title).length * 2) 120) &&
          (normalizeWs p0 == normalizeWs title ||
           stripDeco (normalizeWs p0) == stripDeco (normalizeWs title))) = true) :=
        fun hc => hnP (hcond.mp hc)
      rw [hbody, if_neg hne] at hEq
      have hlen := congrArg List.length hEq
      simp at hlen
    · intro hP
      rw [hbody, if_pos (hcond.mpr hP)]
  · intro hnP
    have hne : ¬((decide ((normalizeWs p0).length ≤ max ((normalizeWs title).length * 2) 120) &&
        (normalizeWs p0 == normalizeWs title ||
         stripDeco (normalizeWs p0) == stripDeco (normalizeWs title))) = true) :=
      fun hc => hnP (hcond.mp hc)
    rw [hbody, if_neg hne]

/-- Witness for C3: for the text `"fore\n\n..."` with title `"forest"` the
elision condition fails, so `"fore"` is rendered as ordinary content ahead
of the remaining paragraphs. -/
theorem claim_C3_witness :
    textToHtmlPieces ("fore\n\nThe trees waited by the gate.".toList)
        ("forest".toList) =
      renderPiece ("fore".toList) ::
        corePieces (normalizeWs ("forest".toList)) false
          [("The trees waited by the gate.".toList)] :=
  (claim_C3_amended ("fore\n\nThe trees waited by the gate.".toList)
      ("forest".toList) ("fore".toList)
      [("The trees waited by the gate.".toList)] (by decide) (by decide)
      (by decide) (by decide)).2 (by decide)

/-- C6 counterexample: the resume button (review.js lines 244-251) posts
`/translate/all` with NO body — in particular it does not carry the
remaining range 6..10 (0-based 5..9) of the spec's stopped-run scenario, so
the range is not an explicit parameter of the resume request. -/
theorem claim_C6_counterexample :
    (resumeTranslateRequest "p1").body = none ∧
    (resumeTranslateRequest "p1").body ≠
      some { start_chapter := 5, end_chapter := 9 } :=
  ⟨rfl, by simp [resumeTranslateRequest]⟩

/-- C6 (amended): the resume/continue button re-posts `/translate/all` with
no range parameter at all (the backend decides what remains), while an
explicit chapter range is sent only by the review panel's separate
"translate more" flow, whose inputs are prefilled with the first and last
untranslated chapters and posted 0-based as `start-1`/`end-1`. -/
theorem claim_C6_amended :
    (∀ pid : String, (resumeTranslateRequest pid).body = none) ∧
    (∀ (chs : List ChapterRec) (s e : Nat),
      reviewPrefill chs = some (s, e) → s ≤ e →
      translateMoreBody chs true =
        some { start_chapter := (s : Int) - 1, end_chapter := (e : Int) - 1 }) := by
  constructor
  · intro pid; rfl
  · intro chs s e hpre hle
    have hse : 1 ≤ s ∧ 1 ≤ e := by
      unfold reviewPrefill at hpre
      cases huntr : untranslatedOf chs with
      | nil => rw [huntr] at hpre; simp at hpre
      | cons first rem =>
        rw [huntr] at hpre
        simp at hpre
        omega
    have hs : (s : Int) ≠ 0 := by omega
    have he : (e : Int) ≠ 0 := by omega
    have hcount : ¬((e : Int) - (s : Int) + 1 < 1) := by omega
    unfold translateMoreBody
    rw [hpre]
    simp [startTranslationBody, jsOrInt, hs, he, hcount]

/-- Witness for C6: in the spec's scenario (chapters 1..5 translated out of
ten, run stopped) the translate-more flow posts exactly the remaining range
6..10, i.e. `start_chapter = 5`, `end_chapter = 9`, while the resume button
posts nothing. -/
theorem claim_C6_witness :
    (resumeTranslateRequest "p7").body = none ∧
    translateMoreBody
      [⟨0, "translated"⟩, ⟨1, "translated"⟩, ⟨2, "translated"⟩,
       ⟨3, "translated"⟩, ⟨4, "translated"⟩, ⟨5, "pending"⟩, ⟨6, "pending"⟩,
       ⟨7, "pending"⟩, ⟨8, "pending"⟩, ⟨9, "pending"⟩] true =
      some { start_chapter := 5, end_chapter := 9 } :=
  ⟨claim_C6_amended.1 "p7",
   claim_C6_amended.2
     [⟨0, "translated"⟩, ⟨1, "translated"⟩, ⟨2, "translated"⟩,
      ⟨3, "translated"⟩, ⟨4, "translated"⟩, ⟨5, "pending"⟩, ⟨6, "pending"⟩,
      ⟨7, "pending"⟩, ⟨8, "pending"⟩, ⟨9, "pending"⟩] 6 10 (by decide)
     (by decide)⟩

theorem inFlightOf_eq (p : Progress) (hp : p.chunk_done ≤ p.chunk_total) :
    inFlightOf p =
      if p.current_chapter ≠ "" then
        (p.chunk_done : ℚ) / (p.chunk_total : ℚ)
      else 0 := by
  unfold inFlightOf chunkFractionOf jsOrNat
  rcases Nat.eq_zero_or_pos p.chunk_total with h0 | hpos
  · have hd : p.chunk_done = 0 := by omega
    simp [h0, hd]
  · have h0 : p.chunk_total ≠ 0 := by omega
    by_cases hd : p.chunk_done = 0 <;> simp [h0, hpos, hd]

theorem inFlightOf_nonneg (p : Progress) : 0 ≤ inFlightOf p := by
  unfold inFlightOf
  split
  · unfold chunkFractionOf
    dsimp only
    split
    · positivity
    · exact le_rfl
  · exact le_rfl

theorem inFlightOf_le_one (p : Progress) (hp : p.chunk_done ≤ p.chunk_total) :
    inFlightOf p ≤ 1 := by
  rw [inFlightOf_eq p hp]
  split
  · rcases Nat.eq_zero_or_pos p.chunk_total with h0 | hpos
    · have hd : p.chunk_done = 0 := by omega
      simp [h0, hd]
    · rw [div_le_one (by exact_mod_cast hpos)]
      exact_mod_cast hp
  · norm_num

theorem smoothOf_nonneg (p : Progress) : 0 ≤ smoothOf p :=
  add_nonneg (by positivity) (inFlightOf_nonneg p)

theorem pctOf_mono (p q : Progress) (htot : 0 < p.total_chapters)
    (hsame : q.total_chapters = p.total_chapters)
    (h : smoothOf p ≤ smoothOf q) : pctOf p ≤ pctOf q := by
  unfold pctOf
  rw [hsame, if_pos htot, if_pos htot]
  apply min_le_min le_rfl
  rw [round_eq, round_eq]
  apply Int.floor_le_floor
  have hT : (0 : ℚ) < (p.total_chapters : ℚ) := by exact_mod_cast htot
  gcongr

/-- C7: for every progress report with `chunk_done ≤ chunk_total` and a
positive total, the displayed percentage is the blend
`(translated + chunk_done/chunk_total·[current chapter in flight]) / total`
(rounded, capped at 100), it lies in `[0, 100]`, it never exceeds the value
for the translated count plus one full in-flight chapter, and across two
poll ticks of one run (translated count grows, or stays equal with a
non-decreasing in-flight fraction) it is monotonically non-decreasing. -/
theorem claim_C7_progress_blend (p q : Progress)
    (hp : p.chunk_done ≤ p.chunk_total) (hq : q.chunk_done ≤ q.chunk_total)
    (htot : 0 < p.total_chapters) (hsame : q.total_chapters = p.total_chapters)
    (hstep : p.translated_chapters < q.translated_chapters ∨
      (p.translated_chapters = q.translated_chapters ∧
       inFlightOf p ≤ inFlightOf q)) :
    pctOf p = min 100 (round ((((p.translated_chapters : ℚ) +
        (if p.current_chapter ≠ "" then
          (p.chunk_done : ℚ) / (p.chunk_total : ℚ) else 0)) /
        (p.total_chapters : ℚ)) * 100)) ∧
    0 ≤ pctOf p ∧ pctOf p ≤ 100 ∧
    pctOf p ≤ min 100 (round ((((p.translated_chapters : ℚ) + 1) /
        (p.total_chapters : ℚ)) * 100)) ∧
    pctOf p ≤ pctOf q := by
  have hT : (0 : ℚ) < (p.total_chapters : ℚ) := by exact_mod_cast htot
  refine ⟨?_, ?_, ?_, ?_, ?_⟩
  · unfold pctOf smoothOf
    rw [if_pos htot, inFlightOf_eq p hp]
  · unfold pctOf
    rw [if_pos htot]
    refine le_min (by norm_num) ?_
    rw [round_eq]
    have hX : (0 : ℚ) ≤ smoothOf p / (p.total_chapters : ℚ) * 100 := by
      have := smoothOf_nonneg p
      positivity
    exact Int.le_floor.mpr (by push_cast; linarith)
  · unfold pctOf
    rw [if_pos htot]
    exact min_le_left _ _
  · unfold pctOf
    rw [if_pos htot]
    apply min_le_min le_rfl
    rw [round_eq, round_eq]
    apply Int.floor_le_floor
    have hs : smoothOf p ≤ (p.translated_chapters : ℚ) + 1 :=
      add_le_add_left (inFlightOf_le_one p hp) _
    gcongr
  · apply pctOf_mono p q htot hsame
    unfold smoothOf
    rcases hstep with h | ⟨h1, h2⟩
    · have h1 : (p.translated_chapters : ℚ) + 1 ≤ (q.translated_chapters : ℚ) := by
        exact_mod_cast h
      have h2 := inFlightOf_le_one p hp
      have h3 := inFlightOf_nonneg q
      linarith
    · rw [h1]
      exact add_le_add_left h2 _

/-- Witness for C7: between the reports (3 translated of 10, chunk 1/4) and
(3 of 10, chunk 2/4) the percentage does not decrease and stays in range. -/
theorem claim_C7_witness :
    0 ≤ pctOf ⟨3, 10, "ch4", 1, 4⟩ ∧ pctOf ⟨3, 10, "ch4", 1, 4⟩ ≤ 100 ∧
    pctOf ⟨3, 10, "ch4", 1, 4⟩ ≤ pctOf ⟨3, 10, "ch4", 2, 4⟩ := by
  have hfl : inFlightOf ⟨3, 10, "ch4", 1, 4⟩ ≤ inFlightOf ⟨3, 10, "ch4", 2, 4⟩ := by
    rw [inFlightOf_eq _ (by norm_num), inFlightOf_eq _ (by norm_num)]
    rw [if_pos (by decide), if_pos (by decide)]
    norm_num
  have h := claim_C7_progress_blend ⟨3, 10, "ch4", 1, 4⟩ ⟨3, 10, "ch4", 2, 4⟩
    (by norm_num) (by norm_num) (by norm_num) rfl (Or.inr ⟨rfl, hfl⟩)
  exact ⟨h.2.1, h.2.2.1, h.2.2.2.2⟩

/-- C10 counterexample: for Spanish the produced prefix `"Capítulo 1: "` is
recognized by none of the `_NUM_PATTERNS`, so stripping after prefixing does
not return the original title — auto-numbering a second time stacks a second
prefix instead of being idempotent. -/
theorem claim_C10_counterexample :
    detectNumberPfx ("Luna".toList) = none ∧
    getChapterPfx ("es".toList) 1 ++ ("Luna".toList) =
      ("Capítulo 1: Luna".toList) ∧
    stripNumberPfx ("Capítulo 1: Luna".toList) = ("Capítulo 1: Luna".toList) ∧
    stripNumberPfx (getChapterPfx ("es".toList) 1 ++ ("Luna".toList)) ≠
      ("Luna".toList) := by
  decide

theorem countWhile_zero_of_head (p : Char → Bool) (l : Str)
    (h : ∀ c r, l = c :: r → p c = false) : countWhile p l = 0 := by
  cases l with
  | nil => rfl
  | cons c r => simp [countWhile, h c r rfl]

theorem countWhile_all_append (p : Char → Bool) (xs ys : Str)
    (h : ∀ c ∈ xs, p c = true) :
    countWhile p (xs ++ ys) = xs.length + countWhile p ys := by
  induction xs with
  | nil => simp
  | cons c xs ih =>
    have hc : p c = true := h c (by simp)
    have ih' := ih (fun d hd => h d (by simp [hd]))
    show countWhile p (c :: (xs ++ ys)) = (c :: xs).length + countWhile p ys
    rw [countWhile, if_pos hc, ih', List.length_cons]
    omega

theorem natDigitChar_mem (k : Nat) :
    natDigitChar k ∈ ['0', '1', '2', '3', '4', '5', '6', '7', '8', '9'] := by
  unfold natDigitChar
  repeat' split
  all_goals decide

theorem natDigitsAux_mem (f : Nat) : ∀ (n : Nat) (c : Char),
    c ∈ natDigitsAux f n →
    c ∈ ['0', '1', '2', '3', '4', '5', '6', '7', '8', '9'] := by
  induction f with
  | zero => intro n c hc; simp [natDigitsAux] at hc
  | succ f ih =>
    intro n c hc
    rw [natDigitsAux] at hc
    split at hc
    · simp at hc
      exact hc ▸ natDigitChar_mem n
    · rcases List.mem_append.mp hc with h | h
      · exact ih _ _ h
      · simp at h
        exact h ▸ natDigitChar_mem (n % 10)

theorem digit_char_classes (c : Char)
    (h : c ∈ ['0', '1', '2', '3', '4', '5', '6', '7', '8', '9']) :
    isJsDigit c = true ∧ isJsSpace c = false ∧ isSepCls c = false ∧
    isZhNumChar c = true ∧ zhMarkerChar c = false := by
  fin_cases h <;> decide

theorem natDigits_classes (n : Nat) : ∀ c ∈ natDigits n,
    isJsDigit c = true ∧ isJsSpace c = false ∧ isSepCls c = false ∧
    isZhNumChar c = true ∧ zhMarkerChar c = false :=
  fun c hc => digit_char_classes c (natDigitsAux_mem (n + 1) n c hc)

theorem natDigits_ne_nil (n : Nat) : natDigits n ≠ [] := by
  unfold natDigits
  rw [natDigitsAux]
  split
  · simp
  · simp

theorem dropWhile_eq_self_head {p : Char → Bool} {l : Str}
    (h : l.dropWhile p = l) : ∀ c r, l = c :: r → p c = false := by
  intro c r hl
  by_contra hc
  have hc' : p c = true := by revert hc; cases (p c) <;> simp
  rw [hl, List.dropWhile_cons, if_pos hc'] at h
  have h1 := (List.dropWhile_suffix (l := r) p).length_le
  have h2 := congrArg List.length h
  simp at h2
  omega

theorem jsTrim_parts {l : Str} (h : jsTrim l = l) :
    l.dropWhile isJsSpace = l ∧ l.reverse.dropWhile isJsSpace = l.reverse := by
  unfold jsTrim at h
  have lenA : (l.dropWhile isJsSpace).length ≤ l.length :=
    (List.dropWhile_suffix (l := l) isJsSpace).length_le
  have lenB : ((l.dropWhile isJsSpace).reverse.dropWhile isJsSpace).length ≤
      (l.dropWhile isJsSpace).length := by
    simpa using
      (List.dropWhile_suffix (l := (l.dropWhile isJsSpace).reverse) isJsSpace).length_le
  have hlen := congrArg List.length h
  simp only [List.length_reverse] at hlen
  have hAl : (l.dropWhile isJsSpace).length = l.length := by omega
  have hA : l.dropWhile isJsSpace = l :=
    (List.dropWhile_suffix _).eq_of_length hAl
  refine ⟨hA, ?_⟩
  have hBl : ((l.dropWhile isJsSpace).reverse.dropWhile isJsSpace).length =
      (l.dropWhile isJsSpace).reverse.length := by
    simp only [List.length_reverse]
    omega
  have hB := (List.dropWhile_suffix
    (l := (l.dropWhile isJsSpace).reverse) isJsSpace).eq_of_length hBl
  rw [hA] at hB
  exact hB

theorem jsTrim_eq_self (l : Str)
    (h1 : ∀ c r, l = c :: r → isJsSpace c = false)
    (h2 : ∀ c r, l.reverse = c :: r → isJsSpace c = false) : jsTrim l = l := by
  unfold jsTrim
  have hA : l.dropWhile isJsSpace = l := by
    cases hl : l with
    | nil => rfl
    | cons a t => simp [List.dropWhile_cons, h1 a t hl]
  rw [hA]
  have hB : l.reverse.dropWhile isJsSpace = l.reverse := by
    cases hr : l.reverse with
    | nil => rfl
    | cons a t => simp [List.dropWhile_cons, h2 a t hr]
  rw [hB, List.reverse_reverse]

theorem jsTrim_shape {s : Str} (c0 : Char) (mid t : Str)
    (hshape : s = c0 :: (mid ++ t)) (hc0 : isJsSpace c0 = false)
    (ht : t ≠ []) (htr : jsTrim t = t) : jsTrim s = s := by
  subst hshape
  have hparts := jsTrim_parts htr
  apply jsTrim_eq_self
  · intro c r h
    injection h with h1 _
    rw [← h1]
    exact hc0
  · intro c r h
    rw [show (c0 :: (mid ++ t)).reverse = t.reverse ++ (mid.reverse ++ [c0]) by
      simp] at h
    cases htr2 : t.reverse with
    | nil =>
      exact absurd (by simpa using congrArg List.reverse htr2) ht
    | cons b bs =>
      rw [htr2] at h
      injection h with h1 _
      rw [← h1]
      exact dropWhile_eq_self_head hparts.2 b bs htr2

theorem matchWordNumSep_none (w s : Str) (h : ciIsPfx w s = false) :
    matchWordNumSep w s = none := by
  unfold matchWordNumSep
  rw [if_neg (by simp [h])]

theorem matchWordNumSep_eval (w s : Str) (D sep t : Str)
    (hci : ciIsPfx w s = true)
    (hdrop : s.drop w.length = ' ' :: (D ++ (sep ++ t)))
    (hD : D ≠ [])
    (hDd : ∀ c ∈ D, isJsDigit c = true ∧ isJsSpace c = false)
    (hsepne : sep ≠ [])
    (hsepc : ∀ c ∈ sep, isSepCls c = true ∧ isJsDigit c = false)
    (hts : ∀ c r, t = c :: r → isSepCls c = false) :
    matchWordNumSep w s = some (w.length + 1 + D.length + sep.length) := by
  unfold matchWordNumSep
  rw [if_pos hci, hdrop]
  dsimp only
  have h1 : countWhile isJsSpace (D ++ (sep ++ t)) = 0 := by
    apply countWhile_zero_of_head
    intro c r h
    cases D with
    | nil => exact absurd rfl hD
    | cons d D' =>
      simp only [List.cons_append] at h
      injection h with hc _
      rw [← hc]
      exact (hDd d (by simp)).2
  have h2 : countWhile isJsSpace (' ' :: (D ++ (sep ++ t))) = 1 := by
    rw [countWhile, if_pos (by decide), h1]
  rw [h2, if_neg (by decide), List.drop_one, List.tail_cons]
  have h3 : countWhile isJsDigit (D ++ (sep ++ t)) = D.length := by
    have hz : countWhile isJsDigit (sep ++ t) = 0 := by
      apply countWhile_zero_of_head
      intro c r h
      cases sep with
      | nil => exact absurd rfl hsepne
      | cons e sep' =>
        simp only [List.cons_append] at h
        injection h with hc _
        rw [← hc]
        exact (hsepc e (by simp)).2
    rw [countWhile_all_append _ _ _ (fun c hc => (hDd c hc).1), hz]
    omega
  rw [h3, if_neg (fun hz => hD (List.length_eq_zero.mp hz)), List.drop_left]
  have h4 : countWhile isSepCls (sep ++ t) = sep.length := by
    rw [countWhile_all_append _ _ _ (fun c hc => (hsepc c hc).1),
      countWhile_zero_of_head _ _ hts]
    omega
  rw [h4]

theorem matchZhNumSep_eval (D t : Str)
    (hD : D ≠ [])
    (hDd : ∀ c ∈ D, isJsSpace c = false ∧ isZhNumChar c = true)
    (hts : ∀ c r, t = c :: r → isSepCls c = false) :
    matchZhNumSep ('第' :: (D ++ ('章' :: '：' :: t))) = some (D.length + 3) := by
  simp only [matchZhNumSep]
  rw [if_pos (by decide)]
  have h1 : countWhile isJsSpace (D ++ ('章' :: '：' :: t)) = 0 := by
    apply countWhile_zero_of_head
    intro c r h
    cases D with
    | nil => exact absurd rfl hD
    | cons d D' =>
      simp only [List.cons_append] at h
      injection h with hc _
      rw [← hc]
      exact (hDd d (by simp)).1
  have h2 : countWhile isZhNumChar (D ++ ('章' :: '：' :: t)) = D.length := by
    have hz : countWhile isZhNumChar ('章' :: '：' :: t) = 0 := by
      apply countWhile_zero_of_head
      intro c r h
      injection h with hc _
      rw [← hc]
      decide
    rw [countWhile_all_append _ _ _ (fun c hc => (hDd c hc).2), hz]
    omega
  rw [h1]
  simp only [List.drop_zero]
  rw [h2, if_neg (fun hz => hD (List.length_eq_zero.mp hz)), List.drop_left]
  have h3 : countWhile isJsSpace ('章' :: '：' :: t) = 0 := by
    apply countWhile_zero_of_head
    intro c r h
    injection h with hc _
    rw [← hc]
    decide
  rw [h3]
  simp only [List.drop_zero]
  rw [if_pos (by decide)]
  have h4 : countWhile isSepCls ('：' :: t) = 1 := by
    rw [countWhile, if_pos (by decide), countWhile_zero_of_head _ _ hts]
  rw [h4]
  simp
  omega

theorem strip_of_detect (s P t : Str)
    (hs : s = P ++ t)
    (hdl : detectLen s = some P.length)
    (htrS : jsTrim s = s) (htrT : jsTrim t = t) (hne : s ≠ []) :
    stripNumberPfx s = t := by
  have hemp : s.isEmpty = false := by
    cases s with
    | nil => exact absurd rfl hne
    | cons a l => rfl
  simp only [stripNumberPfx, detectNumberPfx, hemp, Bool.false_eq_true,
    if_false, htrS, hdl, Option.map_some']
  have htake : s.take P.length = P := by rw [hs]; exact List.take_left P t
  have hdrop : s.drop P.length = t := by rw [hs]; exact List.drop_left P t
  rw [htake, hdrop, htrT]

theorem zh_strip_core (n : Nat) (t : Str) (ht : t ≠ []) (htr : jsTrim t = t)
    (hsep : ∀ c r, t = c :: r → isSepCls c = false) :
    stripNumberPfx ('第' :: (natDigits n ++ ('章' :: '：' :: t))) = t := by
  have hD := natDigits_classes n
  have hDne := natDigits_ne_nil n
  have hDz : ∀ c ∈ natDigits n, isJsSpace c = false ∧ isZhNumChar c = true :=
    fun c hc => ⟨(hD c hc).2.1, (hD c hc).2.2.2.1⟩
  have hmatch := matchZhNumSep_eval (natDigits n) t hDne hDz hsep
  apply strip_of_detect _ (("第".toList) ++ natDigits n ++ ("章：".toList)) t
  · simp [List.append_assoc]
  · unfold detectLen
    have hf1 : ciIsPfx ("chapter".toList)
        ('第' :: (natDigits n ++ ('章' :: '：' :: t))) = false := rfl
    have hf2 : ciIsPfx ("kapitel".toList)
        ('第' :: (natDigits n ++ ('章' :: '：' :: t))) = false := rfl
    have hf3 : ciIsPfx ("chapitre".toList)
        ('第' :: (natDigits n ++ ('章' :: '：' :: t))) = false := rfl
    have hf4 : ciIsPfx ("teil".toList)
        ('第' :: (natDigits n ++ ('章' :: '：' :: t))) = false := rfl
    have hf5 : ciIsPfx ("part".toList)
        ('第' :: (natDigits n ++ ('章' :: '：' :: t))) = false := rfl
    have hf6 : ciIsPfx ("book".toList)
        ('第' :: (natDigits n ++ ('章' :: '：' :: t))) = false := rfl
    rw [matchWordNumSep_none _ _ hf1, matchWordNumSep_none _ _ hf2,
      matchWordNumSep_none _ _ hf3, matchWordNumSep_none _ _ hf4,
      matchWordNumSep_none _ _ hf5, matchWordNumSep_none _ _ hf6, hmatch]
    simp only [Option.none_orElse, Option.some_orElse, Option.some.injEq,
      List.length_append]
    have e1 : (("第".toList : Str)).length = 1 := rfl
    have e2 : (("章：".toList : Str)).length = 2 := rfl
    omega
  · exact jsTrim_shape '第' (natDigits n ++ ("章：".toList)) t
      (by simp [List.append_assoc]) (by decide) ht htr
  · exact htr
  · simp

/-- C10 (amended): the prefix/strip round trip `stripNumberPrefix
(getChapterPrefix lang n ++ t) = t` — hence idempotent auto-numbering —
holds exactly for the languages whose produced prefixes `_NUM_PATTERNS`
recognizes: English (likewise the fallback), German, French, Chinese and
Japanese, provided the title `t` is nonempty, trim-invariant, carries no
detectable number prefix and does not begin with a separator character
(whitespace, dot, colon, dash — such a character would be swallowed by the
greedy separator tail of the matched pattern).  The Spanish, Italian,
Korean and Russian prefixes are recognized by none of the patterns, so
there the round trip fails and prefixes stack. -/
theorem claim_C10_number_roundtrip (lang : String)
    (hlang : lang = "en" ∨ lang = "de" ∨ lang = "fr" ∨ lang = "zh" ∨
      lang = "ja")
    (n : Nat) (hn : 1 ≤ n) (t : Str) (ht : t ≠ [])
    (htr : jsTrim t = t)
    (hsep : ∀ c r, t = c :: r → isSepCls c = false)
    (hdet : detectNumberPfx t = none) :
    stripNumberPfx (getChapterPfx lang.toList n ++ t) = t := by
  have hD := natDigits_classes n
  have hDne := natDigits_ne_nil n
  have hDd : ∀ c ∈ natDigits n, isJsDigit c = true ∧ isJsSpace c = false :=
    fun c hc => ⟨(hD c hc).1, (hD c hc).2.1⟩
  rcases hlang with rfl | rfl | rfl | rfl | rfl
  · -- English: "Chapter N: "
    have hs : getChapterPfx ("en".toList) n ++ t =
        ("Chapter ".toList) ++ (natDigits n ++ (": ".toList ++ t)) := by
      show (("Chapter ".toList) ++ natDigits n ++ (": ".toList)) ++ t = _
      simp [List.append_assoc]
    rw [hs]
    have hmatch : matchWordNumSep ("chapter".toList)
        (("Chapter ".toList) ++ (natDigits n ++ (": ".toList ++ t))) =
        some (("chapter".toList).length + 1 + (natDigits n).length +
          ((": ".toList : Str)).length) :=
      matchWordNumSep_eval _ _ _ _ _ rfl rfl hDne hDd (by decide) (by decide)
        hsep
    apply strip_of_detect _ (("Chapter ".toList) ++ natDigits n ++ (": ".toList)) t
    · simp [List.append_assoc]
    · unfold detectLen
      rw [hmatch]
      simp only [Option.some_orElse, Option.some.injEq, List.length_append]
      have e1 : (("chapter".toList : Str)).length = 7 := rfl
      have e2 : (("Chapter ".toList : Str)).length = 8 := rfl
      have e3 : ((": ".toList : Str)).length = 2 := rfl
      omega
    · exact jsTrim_shape 'C' (("hapter ".toList) ++ (natDigits n ++ (": ".toList)))
        t (by simp [List.append_assoc]) (by decide) ht htr
    · exact htr
    · simp
  · -- German: "Kapitel N: "
    have hs : getChapterPfx ("de".toList) n ++ t =
        ("Kapitel ".toList) ++ (natDigits n ++ (": ".toList ++ t)) := by
      show (("Kapitel ".toList) ++ natDigits n ++ (": ".toList)) ++ t = _
      simp [List.append_assoc]
    rw [hs]
    have hmatch : matchWordNumSep ("kapitel".toList)
        (("Kapitel ".toList) ++ (natDigits n ++ (": ".toList ++ t))) =
        some (("kapitel".toList).length + 1 + (natDigits n).length +
          ((": ".toList : Str)).length) :=
      matchWordNumSep_eval _ _ _ _ _ rfl rfl hDne hDd (by decide) (by decide)
        hsep
    apply strip_of_detect _ (("Kapitel ".toList) ++ natDigits n ++ (": ".toList)) t
    · simp [List.append_assoc]
    · unfold detectLen
      have hf1 : ciIsPfx ("chapter".toList)
          (("Kapitel ".toList) ++ (natDigits n ++ (": ".toList ++ t))) =
          false := rfl
      rw [matchWordNumSep_none _ _ hf1, hmatch]
      simp only [Option.none_orElse, Option.some_orElse, Option.some.injEq,
        List.length_append]
      have e1 : (("kapitel".toList : Str)).length = 7 := rfl
      have e2 : (("Kapitel ".toList : Str)).length = 8 := rfl
      have e3 : ((": ".toList : Str)).length = 2 := rfl
      omega
    · exact jsTrim_shape 'K' (("apitel ".toList) ++ (natDigits n ++ (": ".toList)))
        t (by simp [List.append_assoc]) (by decide) ht htr
    · exact htr
    · simp
  · -- French: "Chapitre N : "
    have hs : getChapterPfx ("fr".toList) n ++ t =
        ("Chapitre ".toList) ++ (natDigits n ++ (" : ".toList ++ t)) := by
      show (("Chapitre ".toList) ++ natDigits n ++ (" : ".toList)) ++ t = _
      simp [List.append_assoc]
    rw [hs]
    have hmatch : matchWordNumSep ("chapitre".toList)
        (("Chapitre ".toList) ++ (natDigits n ++ (" : ".toList ++ t))) =
        some (("chapitre".toList).length + 1 + (natDigits n).length +
          ((" : ".toList : Str)).length) :=
      matchWordNumSep_eval _ _ _ _ _ rfl rfl hDne hDd (by decide) (by decide)
        hsep
    apply strip_of_detect _ (("Chapitre ".toList) ++ natDigits n ++ (" : ".toList)) t
    · simp [List.append_assoc]
    · unfold detectLen
      have hf1 : ciIsPfx ("chapter".toList)
          (("Chapitre ".toList) ++ (natDigits n ++ (" : ".toList ++ t))) =
          false := rfl
      have hf2 : ciIsPfx ("kapitel".toList)
          (("Chapitre ".toList) ++ (natDigits n ++ (" : ".toList ++ t))) =
          false := rfl
      rw [matchWordNumSep_none _ _ hf1, matchWordNumSep_none _ _ hf2, hmatch]
      simp only [Option.none_orElse, Option.some_orElse, Option.some.injEq,
        List.length_append]
      have e1 : (("chapitre".toList : Str)).length = 8 := rfl
      have e2 : (("Chapitre ".toList : Str)).length = 9 := rfl
      have e3 : ((" : ".toList : Str)).length = 3 := rfl
      omega
    · exact jsTrim_shape 'C' (("hapitre ".toList) ++ (natDigits n ++ (" : ".toList)))
        t (by simp [List.append_assoc]) (by decide) ht htr
    · exact htr
    · simp
  · -- Chinese: "第N章："
    have hs : getChapterPfx ("zh".toList) n ++ t =
        '第' :: (natDigits n ++ ('章' :: '：' :: t)) := by
      show (("第".toList) ++ natDigits n ++ ("章：".toList)) ++ t = _
      simp [List.append_assoc]
    rw [hs]
    exact zh_strip_core n t ht htr hsep
  · -- Japanese: the same prefix as Chinese
    have hs : getChapterPfx ("ja".toList) n ++ t =
        '第' :: (natDigits n ++ ('章' :: '：' :: t)) := by
      show (("第".toList) ++ natDigits n ++ ("章：".toList)) ++ t = _
      simp [List.append_assoc]
    rw [hs]
    exact zh_strip_core n t ht htr hsep

/-- Witness for C10: the round trip holds at `lang = "en", n = 12,
t = "Luna"` and at `lang = "zh", n = 5, t = "月亮"`. -/
theorem claim_C10_witness :
    stripNumberPfx (getChapterPfx ("en".toList) 12 ++ ("Luna".toList)) =
      ("Luna".toList) ∧
    stripNumberPfx (getChapterPfx ("zh".toList) 5 ++ ("月亮".toList)) =
      ("月亮".toList) :=
  ⟨claim_C10_number_roundtrip "en" (Or.inl rfl) 12 (by omega) ("Luna".toList)
      (by decide) (by decide)
      (by intro c r h; injection h with h1 _; rw [← h1]; decide) (by decide),
   claim_C10_number_roundtrip "zh" (Or.inr (Or.inr (Or.inr (Or.inl rfl)))) 5
      (by omega) ("月亮".toList) (by decide) (by decide)
      (by intro c r h; injection h with h1 _; rw [← h1]; decide) (by decide)⟩

end BiTrans
